import Mathlib

/-!
Verification model of parts of the roc-toolkit audio streaming pipeline.

The first part models the receiver Depacketizer (turning a stream of
timestamped packets into a continuous PCM frame stream).  The depacketizer
implementation file (roc_audio/depacketizer.cpp) is not among the provided
sources; only its unit tests (src/src/tests/roc_audio/test_depacketizer.cpp)
are.  The model below is therefore modelled from the specification text
(spec.md sections 4.2 Depacketizer and 9) and cross-checked against the
expectations asserted by the unit tests.

The second part embeds packet::Shipper
(src/src/internal_modules/roc_packet/shipper.cpp) and the packet read/write
surface of node::SenderEncoder
(src/src/internal_modules/roc_node/sender_encoder.cpp), which are given in
full as source.
-/

namespace Roc

/-- Modulus of 32-bit RTP stream timestamps. -/
def TsMod : Nat := 4294967296

/-- Half of the modulus, the wrap-aware comparison threshold. -/
def TsHalf : Nat := 2147483648

/-- Unsigned 32-bit subtraction, as computed on stream timestamps. -/
def tsSub (a b : Nat) : Nat := (a + TsMod - b % TsMod) % TsMod

/-- Wrap-aware order on 32-bit stream timestamps: a comes before b
    exactly when the unsigned difference a - b, reinterpreted as a signed
    32-bit integer, is negative. -/
def tsBefore (a b : Nat) : Bool := decide (TsHalf ≤ tsSub a b)

/-- Value of a 32-bit bit pattern reinterpreted as a signed (two complement)
    32-bit integer. -/
def int32Of (x : Nat) : Int :=
  if x % TsMod < TsHalf then ((x % TsMod : Nat) : Int)
  else ((x % TsMod : Nat) : Int) - (TsMod : Int)

/-- Modelled from the spec: an RTP packet as seen by the depacketizer.
    The spec data model (section 3) gives it a 32-bit stream timestamp, a
    capture timestamp in nanoseconds since the Unix epoch (0 means unknown)
    and a decoded PCM payload; the payload length is the packet duration in
    samples.  Samples are modelled as integers; 0 is silence. -/
structure Packet where
  ts : Nat
  cts : Int
  payload : List Int
deriving Repr, DecidableEq

/-- Modelled from the spec: the partially consumed current packet held by
    the depacketizer.  pos is the stream position of the next undecoded
    sample, base the packet header capture timestamp (0 unknown), off the
    number of samples between the header position and pos (truncation shift
    plus samples already decoded), rem the remaining samples. -/
structure CurPkt where
  pos : Nat
  base : Int
  off : Nat
  rem : List Int
deriving Repr, DecidableEq

/-- Modelled from the spec: depacketizer state (section 4.2): started flag,
    next expected stream timestamp, current packet, capture-timestamp
    tracking (base plus sample offset, valid once a packet with non-zero
    capture timestamp was decoded), and the inbound packet reader.  The
    reader is a list; a none entry models one failing read (the reader
    returned a non-OK status such as StatusUnknown or StatusNoData). -/
structure Dp where
  started : Bool
  nextTs : Nat
  cur : Option CurPkt
  trackBase : Int
  trackOff : Nat
  trackValid : Bool
  queue : List (Option Packet)
deriving Repr, DecidableEq

/-- Modelled from the spec: initial depacketizer state over a given reader. -/
def initDp (q : List (Option Packet)) : Dp :=
  { started := false, nextTs := 0, cur := none,
    trackBase := 0, trackOff := 0, trackValid := false, queue := q }

/-- Modelled from the spec: fetching the next usable packet from the reader
    (section 4.2).  Packets whose whole range lies at or before the next
    expected timestamp are discarded as late and counted (PacketDrops);
    a packet overlapping the already consumed range is truncated to its
    in-order suffix; before the first packet no late check applies.  A
    failed read (none) stops fetching for this frame.  Packets with empty
    payload are skipped (a packet always carries at least one sample).
    Returns the packet taken, the remaining reader, and whether any packet
    was dropped. -/
def fetchLoop (started : Bool) (nextTs : Nat) :
    List (Option Packet) → Option CurPkt × List (Option Packet) × Bool
  | [] => (none, [], false)
  | none :: rest => (none, rest, false)
  | some p :: rest =>
    if p.payload = [] then fetchLoop started nextTs rest
    else if started = false then
      (some ⟨p.ts % TsMod, p.cts, 0, p.payload⟩, rest, false)
    else if tsBefore nextTs ((p.ts + p.payload.length) % TsMod) then
      if tsBefore (p.ts % TsMod) nextTs then
        (some ⟨nextTs, p.cts, tsSub nextTs p.ts, p.payload.drop (tsSub nextTs p.ts)⟩,
         rest, false)
      else
        (some ⟨p.ts % TsMod, p.cts, 0, p.payload⟩, rest, false)
    else
      match fetchLoop started nextTs rest with
      | (c, q, _) => (c, q, true)

/-- Result of producing one output sample. -/
structure StepOut where
  sample : Int
  scts : Option Int
  decoded : Bool
  drops : Bool
  stopped : Bool
  next : Dp
deriving Repr, DecidableEq

/-- Modelled from the spec: obtain the packet to consume from: the current
    partially consumed packet if any, otherwise a fetch from the reader.
    Once a fetch yields no packet (reader failed or empty), the rest of the
    frame is filled without fetching again: noFetch carries this within one
    frame. -/
def fetchOr (noFetch : Bool) (s : Dp) : Option CurPkt × List (Option Packet) × Bool :=
  match s.cur with
  | some c =>
    if c.rem.isEmpty then
      (if noFetch then (none, s.queue, false)
       else fetchLoop s.started s.nextTs s.queue)
    else (some c, s.queue, false)
  | none =>
    if noFetch then (none, s.queue, false)
    else fetchLoop s.started s.nextTs s.queue

/-- Modelled from the spec: produce one output sample (section 4.2) given
    the fetched current packet.  With a packet aligned at the next expected
    timestamp one payload sample is decoded; with a packet further ahead
    the gap is filled with one zero; with no packet the output is one zero.
    The capture timestamp of the produced sample is taken from the packet
    header capture timestamp plus per-sample offset when the header carries
    one, else from the running tracking, when valid.  nsps is the duration
    of one sample in nanoseconds. -/
def stepCore (nsps : Nat) (noFetch : Bool) (s : Dp) :
    Option CurPkt × List (Option Packet) × Bool → StepOut
  | (none, q0, dr) =>
    { sample := 0,
      scts := if s.trackValid then some (s.trackBase + Int.ofNat (s.trackOff * nsps))
              else none,
      decoded := false, drops := dr, stopped := true,
      next := { started := s.started,
                nextTs := if s.started then (s.nextTs + 1) % TsMod else s.nextTs,
                cur := none,
                trackBase := s.trackBase,
                trackOff := if s.trackValid then s.trackOff + 1 else s.trackOff,
                trackValid := s.trackValid,
                queue := q0 } }
  | (some c, q0, dr) =>
    if s.started = false ∨ c.pos = s.nextTs then
      if c.base = 0 then
        { sample := c.rem.headD 0,
          scts := if s.trackValid then some (s.trackBase + Int.ofNat (s.trackOff * nsps))
                  else none,
          decoded := true, drops := dr, stopped := noFetch,
          next := { started := true,
                    nextTs := (c.pos + 1) % TsMod,
                    cur := if c.rem.tail.isEmpty then none
                           else some ⟨(c.pos + 1) % TsMod, c.base, c.off + 1, c.rem.tail⟩,
                    trackBase := s.trackBase,
                    trackOff := if s.trackValid then s.trackOff + 1 else s.trackOff,
                    trackValid := s.trackValid,
                    queue := q0 } }
      else
        { sample := c.rem.headD 0,
          scts := some (c.base + Int.ofNat (c.off * nsps)),
          decoded := true, drops := dr, stopped := noFetch,
          next := { started := true,
                    nextTs := (c.pos + 1) % TsMod,
                    cur := if c.rem.tail.isEmpty then none
                           else some ⟨(c.pos + 1) % TsMod, c.base, c.off + 1, c.rem.tail⟩,
                    trackBase := c.base,
                    trackOff := c.off + 1,
                    trackValid := true,
                    queue := q0 } }
    else
      { sample := 0,
        scts := if s.trackValid then some (s.trackBase + Int.ofNat (s.trackOff * nsps))
                else none,
        decoded := false, drops := dr, stopped := noFetch,
        next := { started := true,
                  nextTs := (s.nextTs + 1) % TsMod,
                  cur := some c,
                  trackBase := s.trackBase,
                  trackOff := if s.trackValid then s.trackOff + 1 else s.trackOff,
                  trackValid := s.trackValid,
                  queue := q0 } }

/-- Modelled from the spec: produce one output sample from the depacketizer
    state, fetching a packet from the reader when needed. -/
def stepSample (nsps : Nat) (noFetch : Bool) (s : Dp) : StepOut :=
  stepCore nsps noFetch s (fetchOr noFetch s)

/-- Accumulated result of filling one frame. -/
structure LoopOut where
  samples : List Int
  fcts : Option Int
  dec : Bool
  fill : Bool
  dr : Bool
  st : Dp
deriving Repr, DecidableEq

/-- Modelled from the spec: fill n samples of a frame starting at frame
    offset o; noFetch records that a fetch already came back empty during
    this frame.  The frame capture timestamp is the capture timestamp of
    the first sample whose capture timestamp is known, extrapolated back to
    the frame start. -/
def readLoop (nsps : Nat) : Nat → Nat → Bool → Dp → LoopOut
  | 0, _, _, s => ⟨[], none, false, false, false, s⟩
  | n + 1, o, nf, s =>
    match stepSample nsps nf s,
          readLoop nsps n (o + 1) (stepSample nsps nf s).stopped
            (stepSample nsps nf s).next with
    | t, r =>
      ⟨t.sample :: r.samples,
       (match t.scts with
        | some c => some (c - Int.ofNat (o * nsps))
        | none => r.fcts),
       t.decoded || r.dec,
       !t.decoded || r.fill,
       t.drops || r.dr,
       r.st⟩

/-- An output PCM frame: samples, capture timestamp (0 unknown, never
    negative), and the NotBlank / NotComplete / PacketDrops flags. -/
structure Frame where
  samples : List Int
  cts : Int
  notBlank : Bool
  notComplete : Bool
  drops : Bool
deriving Repr, DecidableEq

/-- Modelled from the spec: one Depacketizer read of an n-sample frame
    (section 4.2).  NotBlank is set when some decoded packet samples were
    included, NotComplete when some samples are fill silence, PacketDrops
    when a late packet was dropped during this read.  The frame capture
    timestamp is clamped so that it is never negative (section 9). -/
def readFrame (nsps : Nat) (s : Dp) (n : Nat) : Frame × Dp :=
  match readLoop nsps n 0 false s with
  | r =>
    (⟨r.samples,
      (match r.fcts with
       | none => 0
       | some c => max c 0),
      r.dec, r.fill, r.dr⟩, r.st)

/-- Modelled from the spec: a sequence of depacketizer reads with the given
    frame sizes. -/
def readSeq (nsps : Nat) (s : Dp) : List Nat → List Frame × Dp
  | [] => ([], s)
  | n :: rest =>
    match readFrame nsps s n with
    | (f, s1) =>
      match readSeq nsps s1 rest with
      | (fs, s2) => (f :: fs, s2)

/-- Status codes of roc_status (spec.md section 7); unknownCode stands for
    StatusUnknown, the reserved not-yet-classified code. -/
inductive Status where
  | ok
  | noData
  | noRoute
  | badPacket
  | badOperation
  | aborted
  | noMem
  | unknownCode
  | notFound
deriving Repr, DecidableEq

/-- A socket address; a default constructed address is invalid, and an
    address converts to true exactly when it is valid (address::SocketAddr). -/
structure SockAddr where
  valid : Bool
  host : Nat
  port : Nat
deriving Repr, DecidableEq

/-- The invalid default socket address. -/
def SockAddr.none0 : SockAddr := ⟨false, 0, 0⟩

/-- The UDP view of a packet (packet::UDP): source and destination address.
    Present exactly when the packet carries FlagUDP; a freshly added view
    has invalid addresses. -/
structure UdpView where
  srcAddr : SockAddr
  dstAddr : SockAddr
deriving Repr, DecidableEq

/-- The empty UDP view created by Packet::add_flags(FlagUDP). -/
def UdpView.empty : UdpView := ⟨SockAddr.none0, SockAddr.none0⟩

/-- A network packet as used by packet::Shipper: the flags checked by
    Shipper::write, the UDP view, and the serialized buffer (opaque bytes). -/
structure ShPkt where
  flagRTP : Bool
  flagUDP : Bool
  flagPrepared : Bool
  flagComposed : Bool
  udp : Option UdpView
  buffer : List Nat
deriving Repr, DecidableEq

/-- The addressing step of Shipper::write
    (src/src/internal_modules/roc_packet/shipper.cpp lines 29-36): when the
    shipper holds a valid outbound address, FlagUDP is added if absent
    (creating an empty UDP view), and dst_addr is set to the outbound
    address only when not already set.  Without a valid outbound address
    the packet is left untouched. -/
def addressStep (outbound : SockAddr) (p : ShPkt) : ShPkt :=
  if outbound.valid then
    let p1 := if !p.flagUDP then { p with flagUDP := true, udp := some UdpView.empty }
              else p
    match p1.udp with
    | some v =>
      if !v.dstAddr.valid then { p1 with udp := some { v with dstAddr := outbound } }
      else p1
    | none => p1
  else p

/-- Shipper::write
    (src/src/internal_modules/roc_packet/shipper.cpp lines 28-51): after the
    addressing step, a packet that is not Prepared is a fatal error
    (roc_panic, modelled as none); a packet that is not yet Composed is
    passed to the composer (composeFn; a composer failure is also a panic)
    and FlagComposed is added; the packet is then handed to the outbound
    writer, whose status (writerCode) is returned.  The result carries the
    returned status, the packet as forwarded, and how many times the
    composer was invoked. -/
def shipperWrite (outbound : SockAddr) (composeFn : ShPkt → Option ShPkt)
    (writerCode : Status) (p : ShPkt) : Option (Status × ShPkt × Nat) :=
  let p1 := addressStep outbound p
  if !p1.flagPrepared then none
  else if !p1.flagComposed then
    match composeFn p1 with
    | none => none
    | some pc => some (writerCode, { pc with flagComposed := true }, 1)
  else some (writerCode, p1, 0)

/-- The sender interfaces of address::Interface used by SenderEncoder. -/
inductive Iface where
  | audioSource
  | audioRepair
  | audioControl
deriving Repr, DecidableEq

/-- State of a node::SenderEncoder relevant to read_packet and
    write_packet: per interface, the endpoint reader (a non-blocking
    concurrent queue, present once the interface is activated) and whether
    an inbound writer exists (only the control interface gets one at
    activation).  The queue contents are modelled from the spec: the
    ConcurrentQueue source is not provided; per spec.md section 7, a
    non-blocking read yields NoData when no packet is available. -/
structure EncState where
  readerQueues : Iface → Option (List ShPkt)
  writerActive : Iface → Bool

/-- A SenderEncoder with no interface activated yet. -/
def initEnc : EncState :=
  { readerQueues := fun _ => none, writerActive := fun _ => false }

/-- SenderEncoder::activate
    (src/src/internal_modules/roc_node/sender_encoder.cpp lines 76-115):
    creates the non-blocking endpoint queue and registers it as the
    interface reader; only the control interface also gets an inbound
    writer. -/
def activate (s : EncState) (i : Iface) : EncState :=
  { readerQueues := fun j => if j = i then some [] else s.readerQueues j,
    writerActive := fun j =>
      if j = i then (match i with
                     | Iface.audioControl => true
                     | _ => s.writerActive j)
      else s.writerActive j }

/-- SenderEncoder::read_packet
    (src/src/internal_modules/roc_node/sender_encoder.cpp lines 166-184):
    with no reader registered for the interface (not activated) it returns
    StatusNoData (the source carries a TODO to return StatusNotFound);
    otherwise it performs a non-blocking read from the endpoint queue,
    which yields the front packet or StatusNoData when empty. -/
def readPacket (s : EncState) (i : Iface) : Status × Option ShPkt × EncState :=
  match s.readerQueues i with
  | none => (Status.noData, none, s)
  | some [] => (Status.noData, none, s)
  | some (p :: rest) =>
    (Status.ok, some p,
     { s with readerQueues := fun j => if j = i then some rest else s.readerQueues j })

/-- SenderEncoder::write_packet
    (src/src/internal_modules/roc_node/sender_encoder.cpp lines 186-213):
    with no writer for the interface, both error branches return
    StatusUnknown today: interface not activated (TODO StatusNotFound) and
    interface without writing support (TODO StatusBadOperation).  With a
    writer the underlying writer status is returned. -/
def writePacket (s : EncState) (i : Iface) (underlying : Status) : Status :=
  if s.writerActive i = false then
    if (s.readerQueues i).isNone then Status.unknownCode
    else Status.unknownCode
  else underlying

/-- Capture timestamp of the Now constant used by the depacketizer tests. -/
def NowNs : Int := 1691499037871419405

/-- Reader contents of the overlapping_packets test scenario: packets of
    200 samples at stream timestamps 0, 100, 200 (SamplesPerPacket = 200,
    so the second and third overlap their predecessor by half a packet),
    with coherent capture timestamps. -/
def overlapQ : List (Option Packet) :=
  [some ⟨0, NowNs, List.replicate 200 11⟩,
   some ⟨100, NowNs + 1000000000, List.replicate 200 22⟩,
   some ⟨200, NowNs + 2000000000, List.replicate 200 33⟩]

/-- Reader contents of the drop_late_packets test scenario: packets of 200
    samples at stream timestamps 400, 200, 600; the second is entirely late
    once the first was consumed.  The third capture timestamp is the value
    the test uses (ts1 + NsPerPacket = 2000000400). -/
def dropLateQ : List (Option Packet) :=
  [some ⟨400, NowNs + 2000000000, List.replicate 200 11⟩,
   some ⟨200, NowNs, List.replicate 200 22⟩,
   some ⟨600, 2000000400, List.replicate 200 33⟩]

/-- Reader contents of the timestamp_fract_frame_per_packet test scenario:
    a first packet with capture timestamp 0 (unknown) and an overlapping
    second packet with a known capture timestamp. -/
def fractQ : List (Option Packet) :=
  [some ⟨1000, 0, List.replicate 200 1⟩,
   some ⟨1100, NowNs + 1000000000, List.replicate 200 1⟩]

/-- Reader contents of the timestamp_small_non_zero_cts test scenario
    (scaled to 20-sample packets): a first packet with capture timestamp 0,
    then packets whose capture timestamps start very close to the Unix
    epoch (5 ns), stepping by 10^8 ns; a second frame worth of packets
    continues the sequence with a different payload value. -/
def smallCtsQ : List (Option Packet) :=
  some ⟨1000, 0, List.replicate 20 1⟩ ::
    ((List.range 9).map (fun k =>
        some ⟨1020 + 20 * k, 5 + (k * 100000000 : Nat), List.replicate 20 1⟩) ++
     (List.range 10).map (fun k =>
        some ⟨1200 + 20 * k, 5 + ((9 + k) * 100000000 : Nat), List.replicate 20 2⟩))

/-- A started depacketizer state used to witness the late-drop theorem:
    position 600 with a late two-sample packet at 200 at the reader front. -/
def lateW : Dp :=
  { started := true, nextTs := 600, cur := none,
    trackBase := 0, trackOff := 0, trackValid := false,
    queue := [some ⟨200, 0, [5, 5]⟩, some ⟨600, 0, [7]⟩] }

/-- Capture timestamp of stream position t on the coherent capture
    timeline with base C, one sample lasting nsps nanoseconds. -/
def ctsAt (nsps : Nat) (C : Int) (t : Nat) : Int := C + Int.ofNat (t * nsps)

/-- A packet coherent with the timeline (C, nsps): non-empty, bounded below
    the wrap threshold, and agreeing with the timeline at its stream
    position whenever it carries a capture timestamp. -/
def PktOk (nsps : Nat) (C : Int) (p : Packet) : Prop :=
  p.payload ≠ [] ∧ p.ts + p.payload.length ≤ TsHalf ∧
    (p.cts ≠ 0 → p.cts = ctsAt nsps C p.ts)

instance (nsps : Nat) (C : Int) (p : Packet) : Decidable (PktOk nsps C p) :=
  inferInstanceAs (Decidable (_ ∧ _ ∧ _))

/-- Reader contents coherent with the timeline (C, nsps): every present
    packet satisfies PktOk; failed reads are allowed anywhere. -/
def QueueOk (nsps : Nat) (C : Int) : List (Option Packet) → Prop
  | [] => True
  | none :: rest => QueueOk nsps C rest
  | some p :: rest => PktOk nsps C p ∧ QueueOk nsps C rest

instance queueOkDecidable (nsps : Nat) (C : Int) :
    (q : List (Option Packet)) → Decidable (QueueOk nsps C q)
  | [] => Decidable.isTrue trivial
  | none :: rest => queueOkDecidable nsps C rest
  | some p :: rest =>
    @instDecidableAnd _ _ inferInstance (queueOkDecidable nsps C rest)

/-- A current packet coherent with the timeline (C, nsps), seen from the
    depacketizer position t: non-empty, not behind t, bounded below the
    wrap threshold, and agreeing with the timeline at its position whenever
    its capture timestamp is known. -/
def CurOk (nsps : Nat) (C : Int) (t : Nat) : Option CurPkt → Prop
  | none => True
  | some c => c.rem ≠ [] ∧ t ≤ c.pos ∧ c.pos + c.rem.length ≤ TsHalf ∧
      (c.base ≠ 0 → c.base + Int.ofNat (c.off * nsps) = ctsAt nsps C c.pos)

instance (nsps : Nat) (C : Int) (t : Nat) :
    (c : Option CurPkt) → Decidable (CurOk nsps C t c)
  | none => Decidable.isTrue trivial
  | some c => inferInstanceAs (Decidable (_ ∧ _ ∧ _ ∧ _))

/-- A depacketizer state on the coherent timeline (C, nsps): started, with
    valid capture tracking agreeing with the timeline at next_timestamp,
    position below the wrap threshold, and coherent current packet and
    reader. -/
structure Coherent (nsps : Nat) (C : Int) (s : Dp) : Prop where
  hst : s.started = true
  hv : s.trackValid = true
  htr : s.trackBase + Int.ofNat (s.trackOff * nsps) = ctsAt nsps C s.nextTs
  hnb : s.nextTs ≤ TsHalf
  hcur : CurOk nsps C s.nextTs s.cur
  hq : QueueOk nsps C s.queue

/-- A small started state on the coherent timeline with base 7, used to
    witness the capture-timestamp advance theorem. -/
def coherentW : Dp :=
  { started := true, nextTs := 0, cur := none,
    trackBase := 7, trackOff := 0, trackValid := true,
    queue := [some ⟨0, 7, [1, 2, 3, 4]⟩] }

set_option maxRecDepth 1000000

theorem tsSub_eq_of_le {a b : Nat} (hba : b ≤ a) (hb : b < TsMod) (hab : a - b < TsMod) :
    tsSub a b = a - b := by
  have hm : b % TsMod = b := Nat.mod_eq_of_lt hb
  have h1 : a + TsMod - b = TsMod + (a - b) := by omega
  rw [tsSub, hm, h1, Nat.add_mod_left, Nat.mod_eq_of_lt hab]

theorem tsSub_eq_of_lt {a b : Nat} (hab : a < b) (hb : b < TsMod) :
    tsSub a b = TsMod - (b - a) := by
  have hm : b % TsMod = b := Nat.mod_eq_of_lt hb
  have h1 : a + TsMod - b = TsMod - (b - a) := by omega
  rw [tsSub, hm, h1, Nat.mod_eq_of_lt (by omega)]

theorem tsBefore_iff_lt {a b : Nat} (ha : a < TsHalf) (hb : b ≤ TsHalf) :
    tsBefore a b = true ↔ a < b := by
  have hmod : TsMod = 4294967296 := rfl
  have hhalf : TsHalf = 2147483648 := rfl
  rcases Nat.lt_or_ge a b with h | h
  · rw [tsBefore, tsSub_eq_of_lt h (by omega)]
    simp only [decide_eq_true_eq]
    omega
  · rw [tsBefore, tsSub_eq_of_le h (by omega) (by omega)]
    simp only [decide_eq_true_eq]
    omega

theorem tsBefore_eq_false_iff_le {a b : Nat} (ha : a < TsHalf) (hb : b ≤ TsHalf) :
    tsBefore a b = false ↔ b ≤ a := by
  rw [Bool.eq_false_iff, Ne, tsBefore_iff_lt ha hb]
  omega

/-- Claim C2: the depacketizer / jitter path orders 32-bit stream
    timestamps wrap-aware: a comes before b exactly when the unsigned
    32-bit difference a - b reinterpreted as a signed 32-bit integer is
    negative; and on three packets whose timestamps straddle the 2^32 wrap
    (ts1 = 2^32 - SamplesPerPacket, ts2 = 0, ts3 = SamplesPerPacket, with
    SamplesPerPacket = 200 and one sample lasting 10^7 ns as in the tests)
    the depacketizer emits all samples in submission order with the correct
    capture timestamps, and no packet is treated as late (no PacketDrops). -/
theorem c2_wrap_aware_order :
    (∀ a b : Nat, a < TsMod → b < TsMod →
      (tsBefore a b = true ↔ int32Of (a + (TsMod - b)) < 0)) ∧
    (readSeq 10000000 (initDp
        [some ⟨TsMod - 200, NowNs, List.replicate 200 11⟩,
         some ⟨0, NowNs + 2000000000, List.replicate 200 22⟩,
         some ⟨200, NowNs + 4000000000, List.replicate 200 33⟩])
        [200, 200, 200]).1 =
      [⟨List.replicate 200 11, NowNs, true, false, false⟩,
       ⟨List.replicate 200 22, NowNs + 2000000000, true, false, false⟩,
       ⟨List.replicate 200 33, NowNs + 4000000000, true, false, false⟩] := by
  constructor
  · intro a b ha hb
    have hx : a + (TsMod - b) = a + TsMod - b % TsMod := by
      rw [Nat.mod_eq_of_lt hb]; omega
    have hlt : tsSub a b < TsMod := by
      rw [tsSub]; exact Nat.mod_lt _ (by decide)
    rw [hx]
    simp only [int32Of, tsBefore, decide_eq_true_eq]
    rw [show (a + TsMod - b % TsMod) % TsMod = tsSub a b from rfl]
    generalize tsSub a b = t at hlt ⊢
    simp only [TsMod, TsHalf] at *
    split <;> push_cast <;> omega
  · decide

/-- Witness for claim C2 at a concrete pair of timestamps across the wrap. -/
theorem c2_wrap_aware_order_witness :
    tsBefore (TsMod - 200) 0 = true ↔ int32Of ((TsMod - 200) + (TsMod - 0)) < 0 :=
  c2_wrap_aware_order.1 (TsMod - 200) 0 (by decide) (by decide)

theorem addressStep_fields (outbound : SockAddr) (p : ShPkt) :
    (addressStep outbound p).flagRTP = p.flagRTP ∧
    (addressStep outbound p).flagPrepared = p.flagPrepared ∧
    (addressStep outbound p).flagComposed = p.flagComposed ∧
    (addressStep outbound p).buffer = p.buffer := by
  by_cases hv : outbound.valid
  · by_cases hu : p.flagUDP
    · rcases hud : p.udp with _ | v
      · simp [addressStep, hv, hu, hud]
      · by_cases hd : v.dstAddr.valid <;>
          simp [addressStep, hv, hu, hud, hd]
    · simp [addressStep, hv, hu, UdpView.empty, SockAddr.none0]
  · simp [addressStep, hv]

/-- Claim C8: for every prepared packet written through Shipper::write the
    Composed flag is set exactly once: a packet already carrying
    FlagComposed is forwarded with its serialized buffer unchanged and the
    composer is not invoked (0 invocations); otherwise the composer is
    invoked exactly once and FlagComposed is set before forwarding; in both
    cases the forwarded packet is the result packet itself and the call
    returns the outbound writer status code. -/
theorem c8_compose_once (outbound : SockAddr) (cf : ShPkt → Option ShPkt)
    (w : Status) (p : ShPkt) (hp : p.flagPrepared = true) :
    (p.flagComposed = true →
      shipperWrite outbound cf w p = some (w, addressStep outbound p, 0) ∧
      (addressStep outbound p).buffer = p.buffer ∧
      (addressStep outbound p).flagComposed = true) ∧
    (p.flagComposed = false → ∀ pc, cf (addressStep outbound p) = some pc →
      shipperWrite outbound cf w p =
        some (w, { pc with flagComposed := true }, 1)) := by
  obtain ⟨-, hprep, hcomp, hbuf⟩ := addressStep_fields outbound p
  constructor
  · intro hc
    refine ⟨?_, hbuf, by rw [hcomp, hc]⟩
    simp [shipperWrite, hprep, hp, hcomp, hc]
  · intro hc pc hpc
    simp [shipperWrite, hprep, hp, hcomp, hc, hpc]

/-- Witness for claim C8 at a concrete packet and composer. -/
theorem c8_compose_once_witness :
    ((⟨true, false, true, true, none, [7]⟩ : ShPkt).flagPrepared = true) ∧
    ((⟨true, false, true, true, none, [7]⟩ : ShPkt).flagComposed = true →
      shipperWrite SockAddr.none0 (fun q => some q) Status.ok
          ⟨true, false, true, true, none, [7]⟩ =
        some (Status.ok, addressStep SockAddr.none0 ⟨true, false, true, true, none, [7]⟩, 0) ∧
      (addressStep SockAddr.none0 ⟨true, false, true, true, none, [7]⟩).buffer =
        (⟨true, false, true, true, none, [7]⟩ : ShPkt).buffer ∧
      (addressStep SockAddr.none0 ⟨true, false, true, true, none, [7]⟩).flagComposed = true) :=
  ⟨rfl, (c8_compose_once SockAddr.none0 (fun q => some q) Status.ok
      ⟨true, false, true, true, none, [7]⟩ rfl).1⟩

/-- Claim C10 (corrected reading is the code itself): a shipper without a
    valid outbound address leaves the UDP flag and UDP addressing of every
    packet unchanged; with a valid outbound address it adds FlagUDP (with a
    fresh empty UDP view) if absent and sets dst_addr to the outbound
    address only when not already set, leaving all other packet fields
    untouched. -/
theorem c10_addressing (outbound : SockAddr) (p : ShPkt) :
    (outbound.valid = false → addressStep outbound p = p) ∧
    (outbound.valid = true →
      (p.flagUDP = false → p.udp = none →
        addressStep outbound p =
          { p with flagUDP := true, udp := some ⟨SockAddr.none0, outbound⟩ }) ∧
      (∀ v, p.flagUDP = true → p.udp = some v →
        (v.dstAddr.valid = true → addressStep outbound p = p) ∧
        (v.dstAddr.valid = false →
          addressStep outbound p = { p with udp := some { v with dstAddr := outbound } }))) := by
  refine ⟨fun hv => by simp [addressStep, hv], fun hv => ⟨fun hu hud => ?_, fun v hu hud => ⟨fun hd => ?_, fun hd => ?_⟩⟩⟩
  · simp [addressStep, hv, hu, hud, UdpView.empty, SockAddr.none0]
  · simp [addressStep, hv, hu, hud, hd]
  · simp [addressStep, hv, hu, hud, hd]

/-- Witness for claim C10 at a concrete address and packet. -/
theorem c10_addressing_witness :
    ((⟨true, 9, 9⟩ : SockAddr).valid = true) ∧
    ((⟨true, false, true, false, none, []⟩ : ShPkt).flagUDP = false →
      (⟨true, false, true, false, none, []⟩ : ShPkt).udp = none →
      addressStep ⟨true, 9, 9⟩ ⟨true, false, true, false, none, []⟩ =
        { (⟨true, false, true, false, none, []⟩ : ShPkt) with
            flagUDP := true, udp := some ⟨SockAddr.none0, ⟨true, 9, 9⟩⟩ }) :=
  ⟨rfl, ((c10_addressing ⟨true, 9, 9⟩ ⟨true, false, true, false, none, []⟩).2 rfl).1⟩

/-- Claim C9 is corrected: read_packet on an interface that was never
    activated also returns StatusNoData (the source carries a TODO to
    return StatusNotFound), so StatusNoData is not reserved to the
    no-packet-available case on an activated interface. -/
theorem c9_counterexample :
    (initEnc.readerQueues Iface.audioSource).isNone = true ∧
    (readPacket initEnc Iface.audioSource).1 = Status.noData :=
  ⟨rfl, rfl⟩

/-- Claim C9 as amended: read_packet returns StatusNoData both when the
    interface is not activated and when the activated non-blocking queue is
    empty, and returns the front packet with StatusOK otherwise; deactivated
    or non-writing interfaces make write_packet return StatusUnknown (the
    not-yet-classified code), and a present writer has its status forwarded. -/
theorem c9_status_codes :
    (∀ (s : EncState) (i : Iface), s.readerQueues i = none →
      (readPacket s i).1 = Status.noData) ∧
    (∀ (s : EncState) (i : Iface), s.readerQueues i = some [] →
      (readPacket s i).1 = Status.noData) ∧
    (∀ (s : EncState) (i : Iface) (p : ShPkt) (rest : List ShPkt),
      s.readerQueues i = some (p :: rest) →
      (readPacket s i).1 = Status.ok ∧ (readPacket s i).2.1 = some p) ∧
    (∀ (s : EncState) (i : Iface) (u : Status), s.writerActive i = false →
      writePacket s i u = Status.unknownCode) ∧
    (∀ (s : EncState) (i : Iface) (u : Status), s.writerActive i = true →
      writePacket s i u = u) := by
  refine ⟨fun s i h => ?_, fun s i h => ?_, fun s i p rest h => ?_,
    fun s i u h => ?_, fun s i u h => ?_⟩
  · rw [readPacket, h]
  · rw [readPacket, h]
  · rw [readPacket, h]; exact ⟨rfl, rfl⟩
  · rw [writePacket, if_pos h]; split <;> rfl
  · rw [writePacket, if_neg (by rw [h]; simp)]

/-- Witness for claim C9 on a freshly activated source interface. -/
theorem c9_status_codes_witness :
    ((activate initEnc Iface.audioSource).readerQueues Iface.audioSource = some []) ∧
    (readPacket (activate initEnc Iface.audioSource) Iface.audioSource).1 =
      Status.noData :=
  ⟨rfl, c9_status_codes.2.1 (activate initEnc Iface.audioSource) Iface.audioSource rfl⟩

theorem readLoop_stopped_initDp (nsps : Nat) (r : List (Option Packet)) :
    ∀ (n o : Nat),
      readLoop nsps n o true (initDp r) =
        ⟨List.replicate n 0, none, false, decide (0 < n), false, initDp r⟩ := by
  intro n
  induction n with
  | zero => intro o; rfl
  | succ m ih =>
    intro o
    have h1 : stepSample nsps true (initDp r) =
        ⟨0, none, false, false, true, initDp r⟩ := by
      simp [stepSample, fetchOr, initDp, stepCore]
    simp only [readLoop, h1, ih (o + 1)]
    simp [List.replicate_succ]

theorem readFrame_stopped_start (nsps n : Nat) (q r : List (Option Packet))
    (hq : fetchLoop false 0 q = (none, r, false)) :
    readFrame nsps (initDp q) (n + 1) =
      (⟨List.replicate (n + 1) 0, 0, false, true, false⟩, initDp r) := by
  have h1 : stepSample nsps false (initDp q) =
      ⟨0, none, false, false, true, initDp r⟩ := by
    simp [stepSample, fetchOr, initDp, hq, stepCore]
  rw [readFrame]
  simp only [readLoop, h1, readLoop_stopped_initDp nsps r n 1]
  simp [List.replicate_succ]

/-- Claim C7 is corrected: a read with no packet available does succeed and
    produces an all-zero frame with capture timestamp 0 that is not marked
    NotBlank, but its flags are not 0: the frame is marked NotComplete, as
    test frame_flags_incompltete_blank asserts for a fresh depacketizer
    over an empty queue. -/
theorem c7_counterexample :
    (readFrame 10000000 (initDp []) 200).1.notComplete = true := by decide

/-- Claim C7 as amended: a read on a not-started depacketizer whose queue
    is empty, or whose reader fails (StatusUnknown, StatusNoData, modelled
    as a none entry), still succeeds and returns an all-zeros frame with
    capture timestamp 0, not marked NotBlank (but marked NotComplete, flags
    are not 0), and subsequent reads proceed normally once packets are
    available again: the state after the failed read is the initial state
    over the rest of the reader, and in the concrete read_after_error
    scenario the second read returns the packet in full. -/
theorem c7_read_never_fails :
    (∀ (nsps n : Nat), readFrame nsps (initDp []) (n + 1) =
      (⟨List.replicate (n + 1) 0, 0, false, true, false⟩, initDp [])) ∧
    (∀ (nsps n : Nat) (r : List (Option Packet)),
      readFrame nsps (initDp (none :: r)) (n + 1) =
        (⟨List.replicate (n + 1) 0, 0, false, true, false⟩, initDp r)) ∧
    ((readSeq 10000000 (initDp [none, some ⟨0, NowNs, List.replicate 200 11⟩])
        [200, 200]).1 =
      [⟨List.replicate 200 0, 0, false, true, false⟩,
       ⟨List.replicate 200 11, NowNs, true, false, false⟩]) :=
  ⟨fun nsps n => readFrame_stopped_start nsps n [] [] rfl,
   fun nsps n r => readFrame_stopped_start nsps n (none :: r) r rfl,
   by decide⟩

/-- Claim C3: a packet overlapping already consumed samples (its timestamp
    before next_timestamp but its end after it) is truncated to its
    in-order suffix, and in the overlapping_packets scenario (packets of
    200 samples at timestamps 0, 100, 200) the output is the first packet
    in full, then the trailing half of the second, then the trailing half
    of the third, with correct capture timestamps; counting sample values
    over all output confirms that no sample is emitted twice. -/
theorem c3_overlap_truncation :
    (∀ (t : Nat) (p : Packet) (q : List (Option Packet)),
      p.payload ≠ [] →
      tsBefore t ((p.ts + p.payload.length) % TsMod) = true →
      tsBefore (p.ts % TsMod) t = true →
      fetchLoop true t (some p :: q) =
        (some ⟨t, p.cts, tsSub t p.ts, p.payload.drop (tsSub t p.ts)⟩, q, false)) ∧
    ((readSeq 10000000 (initDp overlapQ) [200, 100, 100]).1 =
      [⟨List.replicate 200 11, NowNs, true, false, false⟩,
       ⟨List.replicate 100 22, NowNs + 2000000000, true, false, false⟩,
       ⟨List.replicate 100 33, NowNs + 3000000000, true, false, false⟩]) ∧
    (((readSeq 10000000 (initDp overlapQ) [200, 100, 100]).1.map
        Frame.samples).flatten.count 11 = 200 ∧
     ((readSeq 10000000 (initDp overlapQ) [200, 100, 100]).1.map
        Frame.samples).flatten.count 22 = 100 ∧
     ((readSeq 10000000 (initDp overlapQ) [200, 100, 100]).1.map
        Frame.samples).flatten.count 33 = 100) := by
  refine ⟨fun t p q hne h1 h2 => ?_, by decide, by decide, by decide, by decide⟩
  simp [fetchLoop, hne, h1, h2]

/-- Witness for claim C3: the truncation rule applied to the second
    overlapping packet of the scenario, at the depacketizer position 200. -/
theorem c3_overlap_truncation_witness :
    ((List.replicate 200 22 : List Int) ≠ []) ∧
    fetchLoop true 200 [some ⟨100, NowNs + 1000000000, List.replicate 200 22⟩] =
      (some ⟨200, NowNs + 1000000000, tsSub 200 100,
        (List.replicate 200 22).drop (tsSub 200 100)⟩, [], false) :=
  ⟨by decide,
   c3_overlap_truncation.1 200 ⟨100, NowNs + 1000000000, List.replicate 200 22⟩ []
     (by decide) (by decide) (by decide)⟩

theorem stepCore_drops_true (nsps : Nat) (nf : Bool) (s : Dp)
    (c0 : Option CurPkt) (q0 : List (Option Packet)) (d : Bool) :
    stepCore nsps nf s (c0, q0, true) =
      { stepCore nsps nf s (c0, q0, d) with drops := true } := by
  rcases c0 with _ | c
  · rfl
  · simp only [stepCore]
    split
    · split <;> rfl
    · rfl

theorem stepCore_queue_irrel (nsps : Nat) (nf : Bool) (s : Dp)
    (q2 : List (Option Packet)) (fr : Option CurPkt × List (Option Packet) × Bool) :
    stepCore nsps nf { s with queue := q2 } fr = stepCore nsps nf s fr := by
  rcases fr with ⟨c0, q0, dr⟩
  rcases c0 with _ | c <;> rfl

theorem readLoop_drop_head (nsps : Nat) (n o : Nat) (s : Dp) (p : Packet)
    (q : List (Option Packet))
    (hst : s.started = true) (hcur : s.cur = none) (hq : s.queue = some p :: q)
    (hne : p.payload ≠ [])
    (hlate : tsBefore s.nextTs ((p.ts + p.payload.length) % TsMod) = false) :
    readLoop nsps (n + 1) o false s =
      { readLoop nsps (n + 1) o false { s with queue := q } with dr := true } := by
  rcases hrec : fetchLoop true s.nextTs q with ⟨c0, q0, d0⟩
  have hf1 : fetchOr false s = (c0, q0, true) := by
    rw [fetchOr, hcur]
    simp only [Bool.false_eq_true, if_false]
    rw [hst, hq]
    simp [fetchLoop, hne, hlate, hrec]
  have hf2 : fetchOr false { s with queue := q } = (c0, q0, d0) := by
    rw [fetchOr]
    simp only []
    rw [show ({ s with queue := q } : Dp).cur = s.cur from rfl, hcur]
    simp only [Bool.false_eq_true, if_false]
    rw [show ({ s with queue := q } : Dp).started = s.started from rfl, hst, hrec]
  simp only [readLoop, stepSample, hf1, hf2,
    stepCore_drops_true nsps false s c0 q0 d0, stepCore_queue_irrel]
  simp [Bool.true_or]

/-- Claim C1 is corrected: a packet whose stream timestamp is earlier than
    next_timestamp at the moment it is read is not always dropped; in the
    overlapping_packets scenario the second packet is read at position 200
    with timestamp 100 (earlier in wrap-aware order), yet its samples
    (value 22) appear in the next output frame. -/
theorem c1_counterexample :
    ((readSeq 10000000 (initDp overlapQ) [200]).2.nextTs = 200) ∧
    ((readSeq 10000000 (initDp overlapQ) [200]).2.queue.head? =
      some (some ⟨100, NowNs + 1000000000, List.replicate 200 22⟩)) ∧
    (tsBefore 100 200 = true) ∧
    (22 ∈ (readFrame 10000000 ((readSeq 10000000 (initDp overlapQ) [200]).2) 100).1.samples) := by
  exact ⟨by decide, by decide, by decide, by decide⟩

/-- Claim C1 as amended: a packet whose whole range lies before
    next_timestamp (its end not after next_timestamp in wrap-aware order)
    at the moment it is read is dropped: the entire remaining run produces
    exactly the frames of the run with the packet removed from the reader,
    so no sample of the dropped packet appears in any output frame, except
    that the frame spanning the drop carries the PacketDrops flag. -/
theorem c1_late_packet_dropped (nsps : Nat) (s : Dp) (p : Packet)
    (q : List (Option Packet)) (n : Nat) (sizes : List Nat)
    (hst : s.started = true) (hcur : s.cur = none) (hq : s.queue = some p :: q)
    (hne : p.payload ≠ [])
    (hlate : tsBefore s.nextTs ((p.ts + p.payload.length) % TsMod) = false) :
    readSeq nsps s ((n + 1) :: sizes) =
      ({ (readFrame nsps { s with queue := q } (n + 1)).1 with drops := true } ::
        (readSeq nsps (readFrame nsps { s with queue := q } (n + 1)).2 sizes).1,
       (readSeq nsps (readFrame nsps { s with queue := q } (n + 1)).2 sizes).2) := by
  have hl := readLoop_drop_head nsps n 0 s p q hst hcur hq hne hlate
  simp only [readSeq, readFrame, hl]

theorem stepCore_cur_queue_irrel (nsps : Nat) (nf : Bool) (s : Dp)
    (c2 : Option CurPkt) (q2 : List (Option Packet))
    (fr : Option CurPkt × List (Option Packet) × Bool) :
    stepCore nsps nf { s with cur := c2, queue := q2 } fr = stepCore nsps nf s fr := by
  rcases fr with ⟨c0, q0, dr⟩
  rcases c0 with _ | c <;> rfl

theorem isEmpty_eq_false_of_ne_nil {α : Type} {l : List α} (h : l ≠ []) :
    l.isEmpty = false := by
  cases hl : l with
  | nil => exact absurd hl h
  | cons a t => rfl

theorem readLoop_fetch_norm (nsps : Nat) (n o : Nat) (s : Dp) (c : CurPkt)
    (q0 : List (Option Packet))
    (hcur : s.cur = none)
    (hf : fetchLoop s.started s.nextTs s.queue = (some c, q0, false))
    (hrem : c.rem ≠ []) :
    readLoop nsps (n + 1) o false s =
      readLoop nsps (n + 1) o false { s with cur := some c, queue := q0 } := by
  have h1 : fetchOr false s = (some c, q0, false) := by
    rw [fetchOr, hcur]
    simp [hf]
  have h2 : fetchOr false { s with cur := some c, queue := q0 } = (some c, q0, false) := by
    rw [fetchOr]
    simp [isEmpty_eq_false_of_ne_nil hrem]
  simp only [readLoop, stepSample, h1, h2, stepCore_cur_queue_irrel]

theorem readLoop_gap (nsps : Nat) :
    ∀ (n o : Nat) (nf : Bool) (s : Dp) (c : CurPkt),
      s.started = true → s.cur = some c → c.rem ≠ [] →
      s.nextTs ≤ c.pos → c.pos ≤ TsHalf →
      (readLoop nsps n o nf s).samples.take (min (c.pos - s.nextTs) n) =
        List.replicate (min (c.pos - s.nextTs) n) 0 ∧
      (0 < min (c.pos - s.nextTs) n → (readLoop nsps n o nf s).fill = true) := by
  intro n
  induction n with
  | zero =>
    intro o nf s c _ _ _ _ _
    simp
  | succ m ih =>
    intro o nf s c hst hcur hrem hle hb
    rcases Nat.eq_or_lt_of_le hle with heq | hlt
    · simp [heq]
    · have hfr : fetchOr nf s = (some c, s.queue, false) := by
        rw [fetchOr, hcur]
        simp [isEmpty_eq_false_of_ne_nil hrem]
      have hcond : ¬(s.started = false ∨ c.pos = s.nextTs) := by
        rw [hst]
        push_neg
        exact ⟨by simp, by omega⟩
      have hmod : (s.nextTs + 1) % TsMod = s.nextTs + 1 := by
        have : TsHalf < TsMod := by decide
        exact Nat.mod_eq_of_lt (by omega)
      have hstep : stepSample nsps nf s =
          ⟨0,
           (if s.trackValid then some (s.trackBase + Int.ofNat (s.trackOff * nsps))
            else none),
           false, false, nf,
           { started := true, nextTs := s.nextTs + 1, cur := some c,
             trackBase := s.trackBase,
             trackOff := if s.trackValid then s.trackOff + 1 else s.trackOff,
             trackValid := s.trackValid, queue := s.queue }⟩ := by
        rw [stepSample, hfr]
        simp only [stepCore, if_neg hcond, hmod]
      have ihr := ih (o + 1) nf
        { started := true, nextTs := s.nextTs + 1, cur := some c,
          trackBase := s.trackBase,
          trackOff := if s.trackValid then s.trackOff + 1 else s.trackOff,
          trackValid := s.trackValid, queue := s.queue } c rfl rfl hrem
        (by show s.nextTs + 1 ≤ c.pos; omega) hb
      have ih1 : (readLoop nsps m (o + 1) nf
          { started := true, nextTs := s.nextTs + 1, cur := some c,
            trackBase := s.trackBase,
            trackOff := if s.trackValid then s.trackOff + 1 else s.trackOff,
            trackValid := s.trackValid, queue := s.queue }).samples.take
            (min (c.pos - (s.nextTs + 1)) m) =
          List.replicate (min (c.pos - (s.nextTs + 1)) m) 0 := ihr.1
      have hmin : min (c.pos - s.nextTs) (m + 1) =
          min (c.pos - (s.nextTs + 1)) m + 1 := by omega
      simp only [readLoop, hstep]
      refine ⟨?_, fun _ => by simp⟩
      rw [hmin, List.take_succ_cons, List.replicate_succ, ih1]

theorem readLoop_empty_queue (nsps : Nat) :
    ∀ (n o : Nat) (nf : Bool) (s : Dp),
      s.started = true → s.cur = none → s.queue = [] →
      (readLoop nsps n o nf s).samples = List.replicate n 0 ∧
      (readLoop nsps n o nf s).dec = false ∧
      (readLoop nsps n o nf s).dr = false ∧
      (0 < n → (readLoop nsps n o nf s).fill = true) := by
  intro n
  induction n with
  | zero =>
    intro o nf s _ _ _
    simp [readLoop]
  | succ m ih =>
    intro o nf s hst hcur hq
    have hfr : fetchOr nf s = (none, [], false) := by
      rw [fetchOr, hcur, hq]
      cases nf
      · simp [fetchLoop]
      · simp
    have hstep : stepSample nsps nf s =
        ⟨0,
         (if s.trackValid then some (s.trackBase + Int.ofNat (s.trackOff * nsps))
          else none),
         false, false, true,
         { started := s.started,
           nextTs := if s.started then (s.nextTs + 1) % TsMod else s.nextTs,
           cur := none,
           trackBase := s.trackBase,
           trackOff := if s.trackValid then s.trackOff + 1 else s.trackOff,
           trackValid := s.trackValid, queue := [] }⟩ := by
      rw [stepSample, hfr]
      simp only [stepCore]
    have ihr := ih (o + 1) true
      { started := s.started,
        nextTs := if s.started then (s.nextTs + 1) % TsMod else s.nextTs,
        cur := none,
        trackBase := s.trackBase,
        trackOff := if s.trackValid then s.trackOff + 1 else s.trackOff,
        trackValid := s.trackValid, queue := [] } hst rfl rfl
    simp only [readLoop, hstep]
    refine ⟨?_, ?_, ?_, fun _ => by simp⟩
    · simp only [List.replicate_succ]
      rw [ihr.1]
    · simp [ihr.2.1]
    · simp [ihr.2.2.1]

set_option maxRecDepth 1000000 in
/-- Claim C4: for a started depacketizer whose next packet lies further
    ahead than next_timestamp, the gap is filled with zero samples and the
    produced frame carries NotComplete; NotBlank is carried exactly when
    decoded (non-silence) samples were included: a frame that begins with
    packet samples carries NotBlank, while an all-gap frame (started, no
    packet available) is all zeros with NotComplete and without NotBlank;
    the zeros_between_packets scenario shows these flag combinations. -/
theorem c4_gap_zero_fill :
    (∀ (nsps n : Nat) (s : Dp) (p : Packet) (q : List (Option Packet)),
      s.started = true → s.cur = none → s.queue = some p :: q →
      p.payload ≠ [] → s.nextTs < p.ts → p.ts + p.payload.length ≤ TsHalf →
      (readFrame nsps s (n + 1)).1.notComplete = true ∧
      (readFrame nsps s (n + 1)).1.samples.take (min (p.ts - s.nextTs) (n + 1)) =
        List.replicate (min (p.ts - s.nextTs) (n + 1)) 0) ∧
    (∀ (nsps n : Nat) (s : Dp),
      s.started = true → s.cur = none → s.queue = [] →
      (readFrame nsps s (n + 1)).1.samples = List.replicate (n + 1) 0 ∧
      (readFrame nsps s (n + 1)).1.notBlank = false ∧
      (readFrame nsps s (n + 1)).1.notComplete = true) ∧
    (∀ (nsps n : Nat) (s : Dp) (c : CurPkt),
      s.started = true → s.cur = some c → c.rem ≠ [] → c.pos = s.nextTs →
      (readFrame nsps s (n + 1)).1.notBlank = true) ∧
    ((readSeq 10000000 (initDp
        [some ⟨200, NowNs, List.replicate 200 11⟩,
         some ⟨600, NowNs + 4000000000, List.replicate 200 33⟩]) [200, 200, 200]).1 =
      [⟨List.replicate 200 11, NowNs, true, false, false⟩,
       ⟨List.replicate 200 0, NowNs + 2000000000, false, true, false⟩,
       ⟨List.replicate 200 33, NowNs + 4000000000, true, false, false⟩]) := by
  refine ⟨fun nsps n s p q hst hcur hq hne hlt hb => ?_,
    fun nsps n s hst hcur hq => ?_,
    fun nsps n s c hst hcur hrem hpos => ?_, by decide⟩
  · have hlen : 0 < p.payload.length := List.length_pos.mpr hne
    have hts2 : p.ts + p.payload.length < TsMod := by
      have : TsHalf < TsMod := by decide
      omega
    have hmod1 : (p.ts + p.payload.length) % TsMod = p.ts + p.payload.length :=
      Nat.mod_eq_of_lt hts2
    have hmodp : p.ts % TsMod = p.ts := Nat.mod_eq_of_lt (by
      have : TsHalf < TsMod := by decide
      omega)
    have hc1 : tsBefore s.nextTs (p.ts + p.payload.length) = true :=
      (tsBefore_iff_lt (by omega) (by omega)).mpr (by omega)
    have hc2 : tsBefore p.ts s.nextTs = false :=
      (tsBefore_eq_false_iff_le (by omega) (by omega)).mpr (by omega)
    have hf : fetchLoop s.started s.nextTs s.queue =
        (some ⟨p.ts, p.cts, 0, p.payload⟩, q, false) := by
      rw [hst, hq]
      simp [fetchLoop, hne, hmod1, hmodp, hc1, hc2]
    have hnorm := readLoop_fetch_norm nsps n 0 s ⟨p.ts, p.cts, 0, p.payload⟩ q hcur hf hne
    have hgap := readLoop_gap nsps (n + 1) 0 false
      { s with cur := some ⟨p.ts, p.cts, 0, p.payload⟩, queue := q }
      ⟨p.ts, p.cts, 0, p.payload⟩ hst rfl hne (by simp; omega) (by simp; omega)
    rw [readFrame]
    simp only [hnorm]
    have hminpos : 0 < min (p.ts - s.nextTs) (n + 1) := by
      simp
      omega
    refine ⟨?_, ?_⟩
    · exact hgap.2 (by simpa using hminpos)
    · simpa using hgap.1
  · have hz := readLoop_empty_queue nsps (n + 1) 0 false s hst hcur hq
    rw [readFrame]
    exact ⟨hz.1, hz.2.1, hz.2.2.2 (Nat.succ_pos n)⟩
  · have hfr : fetchOr false s = (some c, s.queue, false) := by
      rw [fetchOr, hcur]
      simp [isEmpty_eq_false_of_ne_nil hrem]
    rw [readFrame]
    simp only [readLoop, stepSample, hfr]
    by_cases hb : c.base = 0 <;>
      simp [stepCore, hb, hpos]

/-- Witness for claim C4: an all-gap read on a started depacketizer with an
    exhausted reader. -/
theorem c4_gap_zero_fill_witness :
    ((⟨true, 40, none, NowNs, 0, true, []⟩ : Dp).started = true) ∧
    (readFrame 10 (⟨true, 40, none, NowNs, 0, true, []⟩ : Dp) (3 + 1)).1.samples =
      List.replicate (3 + 1) 0 ∧
    (readFrame 10 (⟨true, 40, none, NowNs, 0, true, []⟩ : Dp) (3 + 1)).1.notBlank = false ∧
    (readFrame 10 (⟨true, 40, none, NowNs, 0, true, []⟩ : Dp) (3 + 1)).1.notComplete = true :=
  ⟨rfl, c4_gap_zero_fill.2.1 10 3 ⟨true, 40, none, NowNs, 0, true, []⟩ rfl rfl rfl⟩

/-- Claim C5 is corrected: with a first packet carrying capture timestamp 0
    the first produced frame does not always have capture timestamp 0: in
    the timestamp_fract_frame_per_packet scenario the frame spans a second
    packet with a known capture timestamp, and the frame capture timestamp
    is back-extrapolated from it to the (non-zero) frame start. -/
theorem c5_counterexample :
    (fractQ.head? = some (some ⟨1000, 0, List.replicate 200 1⟩)) ∧
    (readFrame 10000000 (initDp fractQ) 250).1.cts = NowNs ∧
    NowNs ≠ 0 :=
  ⟨by decide, by decide, by decide⟩

/-- Claim C5 as amended: the produced capture timestamp is never negative;
    when the first packet carries capture timestamp 0, a frame stays at
    capture timestamp 0 unless a packet with non-zero capture timestamp
    falls inside it, in which case the frame capture timestamp is taken
    from that packet, back-extrapolated to the frame start and clamped at
    zero: in the small-cts scenario (later packets with capture timestamps
    close to the Unix epoch) the first frame gets 0, not a negative value,
    and the second frame gets the capture timestamp of its first packet. -/
theorem c5_cts_never_negative :
    (∀ (nsps n : Nat) (s : Dp), 0 ≤ (readFrame nsps s n).1.cts) ∧
    ((readSeq 10000000 (initDp smallCtsQ) [200, 200]).1.map Frame.cts =
      [0, 900000005]) ∧
    ((readFrame 10000000 (initDp fractQ) 250).1.cts = NowNs) := by
  refine ⟨fun nsps n s => ?_, by decide, by decide⟩
  rw [readFrame]
  rcases h : (readLoop nsps n 0 false s).fcts with _ | c
  · simp [h]
  · simp [h]

theorem ofNat_mul_succ (a nsps : Nat) :
    Int.ofNat ((a + 1) * nsps) = Int.ofNat (a * nsps) + Int.ofNat nsps := by
  rw [Nat.succ_mul]
  exact Int.ofNat_add _ _

theorem ctsAt_succ (nsps : Nat) (C : Int) (t : Nat) :
    ctsAt nsps C (t + 1) = ctsAt nsps C t + Int.ofNat nsps := by
  rw [ctsAt, ctsAt, ofNat_mul_succ]
  ring

theorem track_advance {nsps : Nat} {C b : Int} {o t : Nat}
    (h : b + Int.ofNat (o * nsps) = ctsAt nsps C t) :
    b + Int.ofNat ((o + 1) * nsps) = ctsAt nsps C (t + 1) := by
  rw [ofNat_mul_succ, ctsAt_succ, ← h]
  ring

theorem ne_nil_of_isEmpty_eq_false {α : Type} {l : List α}
    (h : l.isEmpty = false) : l ≠ [] := by
  cases l with
  | nil => cases h
  | cons a t => exact List.cons_ne_nil a t

theorem fetch_coherent (nsps : Nat) (C : Int) (t : Nat) (ht : t < TsHalf) :
    ∀ (q : List (Option Packet)), QueueOk nsps C q →
      CurOk nsps C t (fetchLoop true t q).1 ∧
      QueueOk nsps C (fetchLoop true t q).2.1 := by
  have hTs : TsHalf < TsMod := by decide
  intro q
  induction q with
  | nil => intro _; exact ⟨trivial, trivial⟩
  | cons op rest ih =>
    intro hq
    rcases op with _ | p
    · exact ⟨trivial, hq⟩
    · obtain ⟨hpk, hrest⟩ := hq
      obtain ⟨hne, hbnd, hcts⟩ := hpk
      have hlen : 0 < p.payload.length := List.length_pos.mpr hne
      have hmodp : p.ts % TsMod = p.ts := Nat.mod_eq_of_lt (by omega)
      have hmod1 : (p.ts + p.payload.length) % TsMod = p.ts + p.payload.length :=
        Nat.mod_eq_of_lt (by omega)
      have hsf : ¬(true = false) := by decide
      simp only [fetchLoop, if_neg hne, if_neg hsf, hmod1, hmodp]
      cases hc : tsBefore t (p.ts + p.payload.length) with
      | false =>
        simp only [Bool.false_eq_true, if_false]
        rcases hrec : fetchLoop true t rest with ⟨c1, q1, d1⟩
        have ihp := ih hrest
        rw [hrec] at ihp
        exact ihp
      | true =>
        have hlt2 : t < p.ts + p.payload.length :=
          (tsBefore_iff_lt (by omega) (by omega)).mp hc
        simp only [if_true]
        cases hc2 : tsBefore p.ts t with
        | false =>
          have hle2 : t ≤ p.ts :=
            (tsBefore_eq_false_iff_le (by omega) (by omega)).mp hc2
          simp only [Bool.false_eq_true, if_false]
          refine ⟨⟨hne, hle2, ?_, fun hb0 => ?_⟩, hrest⟩
          · show p.ts + p.payload.length ≤ TsHalf
            omega
          · show p.cts + Int.ofNat (0 * nsps) = ctsAt nsps C p.ts
            rw [hcts hb0]
            simp
        | true =>
          have hlt3 : p.ts < t :=
            (tsBefore_iff_lt (by omega) (by omega)).mp hc2
          have hsub : tsSub t p.ts = t - p.ts :=
            tsSub_eq_of_le (by omega) (by omega) (by omega)
          simp only [if_true, hsub]
          have hdlen : (p.payload.drop (t - p.ts)).length =
              p.payload.length - (t - p.ts) := by simp
          refine ⟨⟨?_, ?_, ?_, fun hb0 => ?_⟩, hrest⟩
          · show p.payload.drop (t - p.ts) ≠ []
            intro hnil
            rw [hnil] at hdlen
            simp at hdlen
            omega
          · show t ≤ t
            exact le_refl t
          · show t + (p.payload.drop (t - p.ts)).length ≤ TsHalf
            rw [hdlen]
            omega
          · show p.cts + Int.ofNat ((t - p.ts) * nsps) = ctsAt nsps C t
            have he := hcts hb0
            have hmul : p.ts * nsps + (t - p.ts) * nsps = t * nsps := by
              rw [← Nat.add_mul]
              congr 1
              omega
            rw [he, ctsAt, ctsAt]
            simp only [Int.ofNat_eq_natCast]
            omega

theorem stepCore_coherent (nsps : Nat) (C : Int) (nf : Bool) (s : Dp)
    (c0 : Option CurPkt) (q0 : List (Option Packet)) (dr : Bool)
    (hst : s.started = true) (hv : s.trackValid = true)
    (htr : s.trackBase + Int.ofNat (s.trackOff * nsps) = ctsAt nsps C s.nextTs)
    (hroom : s.nextTs + 1 ≤ TsHalf)
    (hcur : CurOk nsps C s.nextTs c0) (hq : QueueOk nsps C q0) :
    (stepCore nsps nf s (c0, q0, dr)).scts = some (ctsAt nsps C s.nextTs) ∧
    (stepCore nsps nf s (c0, q0, dr)).next.nextTs = s.nextTs + 1 ∧
    Coherent nsps C (stepCore nsps nf s (c0, q0, dr)).next := by
  have hTs : TsHalf < TsMod := by decide
  have hmodn : (s.nextTs + 1) % TsMod = s.nextTs + 1 := Nat.mod_eq_of_lt (by omega)
  rcases c0 with _ | c
  · have hstep : stepCore nsps nf s (none, q0, dr) =
        ⟨0, some (s.trackBase + Int.ofNat (s.trackOff * nsps)), false, dr, true,
         { started := true, nextTs := s.nextTs + 1, cur := none,
           trackBase := s.trackBase, trackOff := s.trackOff + 1,
           trackValid := true, queue := q0 }⟩ := by
      simp [stepCore, hv, hst, hmodn]
    rw [hstep]
    exact ⟨by rw [htr], rfl,
      ⟨rfl, rfl, track_advance htr, (by omega : s.nextTs + 1 ≤ TsHalf), trivial, hq⟩⟩
  · obtain ⟨hrem, hle, hbound, hbase⟩ := hcur
    have hlen : 0 < c.rem.length := List.length_pos.mpr hrem
    have hposmod : (c.pos + 1) % TsMod = c.pos + 1 := Nat.mod_eq_of_lt (by omega)
    rcases Nat.eq_or_lt_of_le hle with heq | hlt
    · have heq2 : c.pos = s.nextTs := heq.symm
      by_cases hb0 : c.base = 0
      · have hstep : stepCore nsps nf s (some c, q0, dr) =
            ⟨c.rem.headD 0, some (s.trackBase + Int.ofNat (s.trackOff * nsps)),
             true, dr, nf,
             { started := true, nextTs := s.nextTs + 1,
               cur := if c.rem.tail.isEmpty then none
                      else some ⟨s.nextTs + 1, c.base, c.off + 1, c.rem.tail⟩,
               trackBase := s.trackBase, trackOff := s.trackOff + 1,
               trackValid := true, queue := q0 }⟩ := by
          simp [stepCore, hv, hst, hb0, heq2, hmodn]
        rw [hstep]
        refine ⟨by rw [htr], rfl,
          ⟨rfl, rfl, track_advance htr, (by omega : s.nextTs + 1 ≤ TsHalf), ?_, hq⟩⟩
        cases hte : c.rem.tail.isEmpty with
        | true => simp only [hte, if_true]; trivial
        | false =>
          simp only [hte, Bool.false_eq_true, if_false]
          have htl : c.rem.tail.length = c.rem.length - 1 := List.length_tail c.rem
          exact ⟨ne_nil_of_isEmpty_eq_false hte, le_refl _,
            (by omega : s.nextTs + 1 + c.rem.tail.length ≤ TsHalf),
            fun hb => absurd hb0 hb⟩
      · have hstep : stepCore nsps nf s (some c, q0, dr) =
            ⟨c.rem.headD 0, some (c.base + Int.ofNat (c.off * nsps)),
             true, dr, nf,
             { started := true, nextTs := s.nextTs + 1,
               cur := if c.rem.tail.isEmpty then none
                      else some ⟨s.nextTs + 1, c.base, c.off + 1, c.rem.tail⟩,
               trackBase := c.base, trackOff := c.off + 1,
               trackValid := true, queue := q0 }⟩ := by
          simp [stepCore, hv, hst, hb0, heq2, hmodn]
        have hb2 : c.base + Int.ofNat (c.off * nsps) = ctsAt nsps C s.nextTs := by
          rw [hbase hb0, heq2]
        rw [hstep]
        refine ⟨by rw [hb2], rfl,
          ⟨rfl, rfl, track_advance hb2, (by omega : s.nextTs + 1 ≤ TsHalf), ?_, hq⟩⟩
        cases hte : c.rem.tail.isEmpty with
        | true => simp only [hte, if_true]; trivial
        | false =>
          simp only [hte, Bool.false_eq_true, if_false]
          have htl : c.rem.tail.length = c.rem.length - 1 := List.length_tail c.rem
          exact ⟨ne_nil_of_isEmpty_eq_false hte, le_refl _,
            (by omega : s.nextTs + 1 + c.rem.tail.length ≤ TsHalf),
            fun _ => track_advance hb2⟩
    · have hnee : ¬(c.pos = s.nextTs) := by omega
      have hstep : stepCore nsps nf s (some c, q0, dr) =
          ⟨0, some (s.trackBase + Int.ofNat (s.trackOff * nsps)), false, dr, nf,
           { started := true, nextTs := s.nextTs + 1, cur := some c,
             trackBase := s.trackBase, trackOff := s.trackOff + 1,
             trackValid := true, queue := q0 }⟩ := by
        simp [stepCore, hv, hst, hnee, hmodn]
      rw [hstep]
      exact ⟨by rw [htr], rfl,
        ⟨rfl, rfl, track_advance htr, (by omega : s.nextTs + 1 ≤ TsHalf),
         ⟨hrem, (by omega : s.nextTs + 1 ≤ c.pos), hbound, hbase⟩, hq⟩⟩

theorem stepSample_coherent (nsps : Nat) (C : Int) (nf : Bool) (s : Dp)
    (hco : Coherent nsps C s) (hroom : s.nextTs + 1 ≤ TsHalf) :
    (stepSample nsps nf s).scts = some (ctsAt nsps C s.nextTs) ∧
    (stepSample nsps nf s).next.nextTs = s.nextTs + 1 ∧
    Coherent nsps C (stepSample nsps nf s).next := by
  obtain ⟨hst, hv, htr, hnb, hcur, hq⟩ := hco
  rcases hcs : s.cur with _ | c
  · cases nf with
    | false =>
      rcases hrec : fetchLoop true s.nextTs s.queue with ⟨c1, q1, d1⟩
      have hfr : fetchOr false s = (c1, q1, d1) := by
        rw [fetchOr, hcs, hst]
        simpa using hrec
      have hprops := fetch_coherent nsps C s.nextTs (by omega) s.queue hq
      rw [hrec] at hprops
      rw [stepSample, hfr]
      exact stepCore_coherent nsps C false s c1 q1 d1 hst hv htr hroom
        hprops.1 hprops.2
    | true =>
      have hfr : fetchOr true s = (none, s.queue, false) := by
        rw [fetchOr, hcs]
        simp
      rw [stepSample, hfr]
      exact stepCore_coherent nsps C true s none s.queue false hst hv htr hroom
        trivial hq
  · rw [hcs] at hcur
    have hfr : fetchOr nf s = (some c, s.queue, false) := by
      rw [fetchOr, hcs]
      simp [isEmpty_eq_false_of_ne_nil hcur.1]
    rw [stepSample, hfr]
    exact stepCore_coherent nsps C nf s (some c) s.queue false hst hv htr hroom
      hcur hq

theorem readLoop_coherent (nsps : Nat) (C : Int) :
    ∀ (n o : Nat) (nf : Bool) (s : Dp), Coherent nsps C s →
      s.nextTs + n ≤ TsHalf →
      (readLoop nsps n o nf s).st.nextTs = s.nextTs + n ∧
      Coherent nsps C (readLoop nsps n o nf s).st ∧
      (0 < n →
        (readLoop nsps n o nf s).fcts =
          some (ctsAt nsps C s.nextTs - Int.ofNat (o * nsps))) := by
  intro n
  induction n with
  | zero =>
    intro o nf s hco _
    exact ⟨rfl, hco, fun h => absurd h (by omega)⟩
  | succ m ih =>
    intro o nf s hco hroom
    obtain ⟨hscts, hnext, hco2⟩ :=
      stepSample_coherent nsps C nf s hco (by omega)
    have ihr := ih (o + 1) (stepSample nsps nf s).stopped
      (stepSample nsps nf s).next hco2 (by rw [hnext]; omega)
    simp only [readLoop]
    refine ⟨?_, ihr.2.1, fun _ => ?_⟩
    · rw [ihr.1, hnext]
      omega
    · rw [hscts]

/-- The capture timestamp of a frame read on a coherent state is exactly
    the timeline value at the state position, and the resulting state is
    coherent at position advanced by the frame length. -/
theorem readFrame_coherent (nsps : Nat) (C : Int) (s : Dp) (n : Nat)
    (hco : Coherent nsps C s) (hroom : s.nextTs + n ≤ TsHalf) (hC : 0 ≤ C)
    (hn : 0 < n) :
    (readFrame nsps s n).1.cts = ctsAt nsps C s.nextTs ∧
    (readFrame nsps s n).2.nextTs = s.nextTs + n ∧
    Coherent nsps C (readFrame nsps s n).2 := by
  obtain ⟨h1, h2, h3⟩ := readLoop_coherent nsps C n 0 false s hco hroom
  rw [readFrame]
  refine ⟨?_, h1, h2⟩
  rw [h3 hn]
  have hnn : 0 ≤ ctsAt nsps C s.nextTs := by
    rw [ctsAt]
    simp only [Int.ofNat_eq_natCast]
    omega
  simp only [Nat.zero_mul, Int.ofNat_eq_natCast, Nat.cast_zero, sub_zero]
  exact max_eq_left hnn

/-- Claim C6 is corrected: two consecutively produced frames can both have
    non-zero capture timestamps whose difference is nowhere near the frame
    duration: in the drop_late_packets scenario the second frame takes its
    capture timestamp from the test value ts1 + NsPerPacket = 2000000400,
    about 53 years earlier than the first frame. -/
theorem c6_counterexample :
    ((readSeq 10000000 (initDp dropLateQ) [200, 200]).1.map Frame.cts =
      [NowNs + 2000000000, 2000000400]) ∧
    (NowNs + 2000000000 ≠ 0) ∧ ((2000000400 : Int) ≠ 0) ∧
    (1000 <
      ((2000000400 - (NowNs + 2000000000)) - Int.ofNat (200 * 10000000)).natAbs) := by
  exact ⟨by decide, by decide, by decide, by decide⟩

/-- Claim C6 as amended: for a session whose packets carry capture
    timestamps consistent with their stream timestamps (each non-zero
    packet capture timestamp equals a common base plus the nanosecond value
    of its stream position), consecutive frames have capture timestamps
    advancing exactly with the samples produced: the second frame capture
    timestamp minus the first equals the nanosecond duration of the first
    frame (within the ±1 microsecond tolerance trivially, as the difference
    is exact). -/
theorem c6_cts_advance (nsps : Nat) (C : Int) (s : Dp) (n1 n2 : Nat)
    (hco : Coherent nsps C s) (hC : 0 ≤ C) (h1 : 0 < n1) (h2 : 0 < n2)
    (hroom : s.nextTs + n1 + n2 ≤ TsHalf) :
    (readFrame nsps (readFrame nsps s n1).2 n2).1.cts -
        (readFrame nsps s n1).1.cts = Int.ofNat (n1 * nsps) := by
  obtain ⟨hc1, hn1, hco1⟩ :=
    readFrame_coherent nsps C s n1 hco (by omega) hC h1
  obtain ⟨hc2, hn2, hco2⟩ :=
    readFrame_coherent nsps C (readFrame nsps s n1).2 n2 hco1
      (by rw [hn1]; omega) hC h2
  rw [hc1, hc2, hn1]
  rw [ctsAt, ctsAt]
  have hmul : s.nextTs * nsps + n1 * nsps = (s.nextTs + n1) * nsps := by
    rw [← Nat.add_mul]
  simp only [Int.ofNat_eq_natCast]
  omega

/-- Witness for the amended claim C6 on a small coherent state. -/
theorem c6_cts_advance_witness :
    ((0 : Int) ≤ 7) ∧ (0 < 2) ∧ (coherentW.nextTs + 2 + 2 ≤ TsHalf) ∧
    ((readFrame 10 (readFrame 10 coherentW 2).2 2).1.cts -
        (readFrame 10 coherentW 2).1.cts = Int.ofNat (2 * 10)) :=
  ⟨by decide, by decide, by decide,
   c6_cts_advance 10 7 coherentW 2 2
     ⟨rfl, rfl, by decide, by decide, by decide, by decide⟩
     (by decide) (by decide) (by decide) (by decide)⟩

/-- Witness for the amended claim C1 on a concrete late packet. -/
theorem c1_late_packet_dropped_witness :
    (tsBefore lateW.nextTs ((200 + ([5, 5] : List Int).length) % TsMod) = false) ∧
    readSeq 10 lateW [0 + 1] =
      ({ (readFrame 10 { lateW with queue := [some ⟨600, 0, [7]⟩] } (0 + 1)).1
          with drops := true } ::
        (readSeq 10 (readFrame 10 { lateW with queue := [some ⟨600, 0, [7]⟩] } (0 + 1)).2 []).1,
       (readSeq 10 (readFrame 10 { lateW with queue := [some ⟨600, 0, [7]⟩] } (0 + 1)).2 []).2) :=
  ⟨by decide,
   c1_late_packet_dropped 10 lateW ⟨200, 0, [5, 5]⟩ [some ⟨600, 0, [7]⟩] 0 []
     rfl rfl rfl (by decide) (by decide)⟩

end Roc
